import Mathlib

/-!
Shallow embedding of the travel-planner core (travel_agent.py): geocoding
resolution, POI retrieval with fallback ranking, weather notes, and the
weather-aware day-by-day itinerary assignment algorithm.  Network calls are
abstracted as input data (the lists/records the providers would return);
everything downstream of those inputs is transliterated from the source.
Dates are modelled as integer day ordinals (Python date arithmetic on
timedeltas is exactly integer arithmetic on ordinals); numeric weather
values are modelled as rationals.
-/

/-- Python str.lower modelled character-wise (kernel-reducible). -/
def strLower (s : String) : String :=
  ⟨s.data.map Char.toLower⟩

/-- Python str.strip modelled character-wise (kernel-reducible). -/
def strTrim (s : String) : String :=
  ⟨((s.data.dropWhile Char.isWhitespace).reverse.dropWhile Char.isWhitespace).reverse⟩

/-- Python substring test: needle occurs somewhere in hay. -/
def containsStr (hay needle : String) : Bool :=
  hay.toList.tails.any (fun t => needle.toList.isPrefixOf t)

/-- Python name.strip().lower, the POI dedup key. -/
def lowerTrim (s : String) : String :=
  strLower (strTrim s)

/-- A point of interest as produced by the fetchers: name, comma-joined kind
tags, optional distance. -/
structure POI where
  name : String
  kinds : String
  dist : Option ℚ
deriving DecidableEq, Repr

/-- An Overpass element as far as the code reads it: the name tag and the
four kind tags (tourism, historic, leisure, amenity), each possibly absent. -/
structure OElem where
  name : Option String
  tourism : Option String
  historic : Option String
  leisure : Option String
  amenity : Option String
deriving DecidableEq, Repr

/-- Comma-joined kind string of an Overpass element, keys read in the fixed
order tourism, historic, leisure, amenity; empty-string tags dropped
(Python: the list comprehension filters falsy values). -/
def oKinds (e : OElem) : String :=
  String.intercalate ","
    (([e.tourism, e.historic, e.leisure, e.amenity].filterMap id).filter (fun s => s ≠ ""))

/-- Loop body of fetch_pois_overpass: skip unnamed elements, deduplicate by
lowercase stripped name, stop once the result count reaches the limit
(append first, then test, as the source does). -/
def overpassLoop (limit : Nat) : List OElem → List String → Nat → List POI
  | [], _, _ => []
  | e :: rest, seen, count =>
    match e.name with
    | none => overpassLoop limit rest seen count
    | some name =>
      let key := lowerTrim name
      if key ∈ seen then overpassLoop limit rest seen count
      else
        let kinds := oKinds e
        let poi : POI := ⟨name, if kinds = "" then "unknown" else kinds, none⟩
        if limit ≤ count + 1 then [poi]
        else poi :: overpassLoop limit rest (key :: seen) (count + 1)

/-- fetch_pois_overpass on the element list the Overpass query returned. -/
def fetch_pois_overpass (elements : List OElem) (limit : Nat) : List POI :=
  overpassLoop limit elements [] 0

/-- The fixed priority table of kind substrings used to rank fallback POIs. -/
def priority : List String :=
  ["attraction", "museum", "memorial", "monument", "historic", "park", "marketplace", "gallery"]

/-- score's scan over the priority table: first matching entry at position i
yields -(8 - i) (written i - 8); no match yields 0. -/
def scoreLoop (kinds : String) : List String → Nat → Int
  | [], _ => 0
  | k :: rest, i => if containsStr kinds k then (i : Int) - 8 else scoreLoop kinds rest (i + 1)

/-- The sort key used on fallback POIs (score in fetch_pois). -/
def score (p : POI) : Int :=
  scoreLoop (strLower p.kinds) priority 0

/-- Insert into a score-sorted list, placing x after all strictly smaller
scores and before the first equal-or-larger one (stable insertion). -/
def insSorted (x : POI) : List POI → List POI
  | [] => [x]
  | y :: ys => if score y < score x then y :: insSorted x ys else x :: y :: ys

/-- Stable ascending sort by score, modelling Python list.sort(key=score). -/
def sortByScore : List POI → List POI
  | [] => []
  | x :: xs => insSorted x (sortByScore xs)

/-- Primary-path filter in fetch_pois: drop whitespace-only names and
deduplicate by lowercase name, preserving first-seen order. -/
def primFilter : List POI → List String → List POI
  | [], _ => []
  | p :: rest, seen =>
    let name := strTrim p.name
    if name = "" then primFilter rest seen
    else
      let key := strLower name
      if key ∈ seen then primFilter rest seen
      else p :: primFilter rest (key :: seen)

/-- fetch_pois: primary provider results are deduplicated and truncated; only
when the primary path yields zero results is the Overpass fallback consulted,
with at least 12 requested, ranked by score with a stable sort, truncated. -/
def fetch_pois (primary : List POI) (elements : List OElem) (limit : Nat) : List POI :=
  if primary.isEmpty then
    let pois2 := fetch_pois_overpass elements (max limit 12)
    if pois2.isEmpty then []
    else (sortByScore pois2).take limit
  else (primFilter primary []).take limit

/-- Reference links attached to a geocoded place. -/
structure Links where
  openstreetmap : String
  google_maps : String
  wikipedia_search : String
deriving DecidableEq, Repr

/-- A geocoded place as the tools consume it. -/
structure Geo where
  lat : ℚ
  lon : ℚ
  name : String
  category : String
  links : Links
deriving DecidableEq, Repr

/-- Category derivation of geocode_nominatim_once: ordered substring matches
on the lowercased "class:type" string (with the source's extra raw-ftype
beach test). -/
def deriveCategory (fclass ftype : String) : String :=
  let class_type := strLower (fclass ++ ":" ++ ftype)
  if containsStr class_type "beach" || containsStr ftype "beach" then "beach"
  else if ["peak", "mountain", "hill", "ridge", "valley", "mountain_range"].any
      (fun x => containsStr class_type x) then "mountain/hill"
  else if containsStr class_type "city" || containsStr class_type "town" ||
      containsStr class_type "village" || containsStr class_type "county" then "city"
  else if containsStr class_type "water" || containsStr class_type "river" then "water"
  else "other"

/-- geocode_city over abstract providers: strip the input and refuse blank
places before any provider is consulted; otherwise OpenTripMap first, then
Nominatim with the display-name token check and the country-hint retry. -/
def geocode_city (otm nom : String → Option Geo) (place : String) : Option Geo :=
  let place := strTrim place
  if place = "" then none
  else
    match otm place with
    | some g => some g
    | none =>
      match nom place with
      | none => none
      | some g =>
        let token := strLower (strTrim ((place.splitOn ",").headD ""))
        let displayLower := strLower g.name
        if token ≠ "" && !containsStr displayLower token && !containsStr displayLower "india" then
          match nom (place ++ ", India") with
          | some alt => some alt
          | none => some g
        else some g

/-- The daily weather structure returned by fetch_weather on success. -/
structure WeatherDaily where
  time : List String
  temperature_2m_max : List ℚ
  temperature_2m_min : List ℚ
  precipitation_sum : List ℚ
deriving DecidableEq, Repr

/-- weather.get("precipitation_sum", []): empty on fetch failure. -/
def wPrecip : Option WeatherDaily → List ℚ
  | none => []
  | some w => w.precipitation_sum

/-- weather.get("temperature_2m_max", []). -/
def wTmax : Option WeatherDaily → List ℚ
  | none => []
  | some w => w.temperature_2m_max

/-- weather.get("temperature_2m_min", []). -/
def wTmin : Option WeatherDaily → List ℚ
  | none => []
  | some w => w.temperature_2m_min

/-- The precipitation tier message of weather_note_for_day. -/
def precipNote (pr : ℚ) : String :=
  if 10 ≤ pr then "Heavy rain expected — favor indoor activities"
  else if 2 ≤ pr then "Chance of rain — have indoor alternatives"
  else if 0 < pr then "Light showers possible"
  else "Good weather for walking"

/-- note_parts of weather_note_for_day: a precipitation message when index i
has precipitation data, then a temperature message when both max and min
temperature exist at i (hot at max ≥ 30, cool at max ≤ 15, else none). -/
def noteParts (precip tmax tmin : List ℚ) (i : Nat) : List String :=
  (match precip.get? i with
   | some pr => [precipNote pr]
   | none => []) ++
  (match tmax.get? i, tmin.get? i with
   | some mx, some _ =>
     if 30 ≤ mx then ["Hot during day"]
     else if mx ≤ 15 then ["Cool day — bring a jacket"]
     else []
   | _, _ => [])

/-- weather_note_for_day: the semicolon join of the parts, or the neutral
message when no part applies. -/
def weather_note_for_day (precip tmax tmin : List ℚ) (i : Nat) : String :=
  let parts := noteParts precip tmax tmin i
  if parts = [] then "No specific weather notes" else String.intercalate "; " parts

/-- A pooled POI as the planner's selection loop sees it. -/
structure PoolPOI where
  name : String
  is_indoor : Bool
  kinds : String
deriving DecidableEq, Repr

/-- The indoor kind tags of the planner. -/
def indoor_kinds : List String :=
  ["museum", "theatre", "gallery", "library", "cinema"]

/-- Pool construction of itinerary_agent: lowercase the kind string and tag
is_indoor when any indoor kind occurs in it as a substring. -/
def mkPool (pois : List POI) : List PoolPOI :=
  pois.map fun p =>
    { name := p.name
      is_indoor := indoor_kinds.any (fun k => containsStr (strLower p.kinds) k)
      kinds := strLower p.kinds }

/-- rainy for a day index: precipitation at that index is at least 2.0 mm;
an out-of-range index is not rainy. -/
def rainyAt (precip : List ℚ) (i : Nat) : Bool :=
  match precip.get? i with
  | some pr => decide ((2 : ℚ) ≤ pr)
  | none => false

/-- The round-robin selection loop of itinerary_agent, fuelled by the
remaining attempt budget (the source counts attempts up to the bound; here
the first component of the budget accounting is the attempts still allowed).
Mirrors the source exactly: stop when the day quota is reached or the budget
is spent; index the pool at idx % max(1, len(pool)) (None when the pool is
empty, which breaks); skip already-assigned names; on a rainy day skip
outdoor POIs; otherwise select.  Returns (selected, assigned, idx, budget
left). -/
def rrLoop (pool : List PoolPOI) (rainy : Bool) (dl : Nat) :
    Nat → Nat → List String → List String → List String × List String × Nat × Nat
  | 0, idx, sel, asg => (sel, asg, idx, 0)
  | fuel + 1, idx, sel, asg =>
    if sel.length < dl then
      match pool.get? (idx % max 1 pool.length) with
      | none => (sel, asg, idx + 1, fuel)
      | some p =>
        if p.name ∈ asg then rrLoop pool rainy dl fuel (idx + 1) sel asg
        else if rainy && !p.is_indoor then rrLoop pool rainy dl fuel (idx + 1) sel asg
        else rrLoop pool rainy dl fuel (idx + 1) (sel ++ [p.name]) (p.name :: asg)
    else (sel, asg, idx, fuel + 1)

/-- The attempt bound of the round-robin loop: max(1, len(pool)) * 2. -/
def rrBound (pool : List PoolPOI) : Nat :=
  max 1 pool.length * 2

/-- The backfill pass: one linear scan of the pool for still-unassigned POIs
regardless of the rain constraint, stopping once the day quota is met. -/
def backfill (dl : Nat) : List PoolPOI → List String → List String → List String × List String
  | [], sel, asg => (sel, asg)
  | p :: rest, sel, asg =>
    if p.name ∈ asg then backfill dl rest sel asg
    else if dl ≤ (sel ++ [p.name]).length then (sel ++ [p.name], p.name :: asg)
    else backfill dl rest (sel ++ [p.name]) (p.name :: asg)

/-- One day of the planner: compute rainy, run the round-robin pass with the
full attempt budget starting from the shared cursor, then backfill if the
quota is unmet.  Returns (selected names in order, assigned, new cursor). -/
def processDay (pool : List PoolPOI) (precip : List ℚ) (dl dayIndex idx : Nat)
    (asg : List String) : List String × List String × Nat :=
  let rainy := rainyAt precip dayIndex
  let r := rrLoop pool rainy dl (rrBound pool) idx [] asg
  let sel := r.1
  let asg' := r.2.1
  let idx' := r.2.2.1
  if sel.length < dl then
    let b := backfill dl pool sel asg'
    (b.1, b.2, idx')
  else (sel, asg', idx')

/-- The per-day loop over day indices, threading the cursor and the assigned
set across days.  Returns (selections per day, final assigned, final cursor). -/
def runDays (pool : List PoolPOI) (precip : List ℚ) (dl : Nat) :
    List Nat → Nat → List String → List (List String) × List String × Nat
  | [], idx, asg => ([], asg, idx)
  | d :: ds, idx, asg =>
    let r := processDay pool precip dl d idx asg
    let rest := runDays pool precip dl ds r.2.2 r.2.1
    (r.1 :: rest.1, rest.2.1, rest.2.2)

/-- The selections the planner makes for days 0..numDays-1, starting with an
empty assigned set and cursor 0. -/
def itinerarySelections (pool : List PoolPOI) (precip : List ℚ) (dl numDays : Nat) :
    List (List String) :=
  (runDays pool precip dl (List.range numDays) 0 []).1

/-- The assigned set after the whole run. -/
def finalAssigned (pool : List PoolPOI) (precip : List ℚ) (dl numDays : Nat) : List String :=
  (runDays pool precip dl (List.range numDays) 0 []).2.1

/-- One itinerary row. -/
structure Row where
  date : Int
  morning : String
  afternoon : String
  evening : String
  notes : String
deriving DecidableEq, Repr

/-- Build the row of a day: selected POIs map positionally to
morning/afternoon/evening, unfilled slots get the placeholders, the date is
start + day index, notes come from weather_note_for_day. -/
def rowOfDay (sd : Int) (precip tmax tmin : List ℚ) (i : Nat) (sel : List String) : Row :=
  { date := sd + i
    morning := (sel.get? 0).getD "Free / explore locally"
    afternoon := (sel.get? 1).getD "Free / explore locally"
    evening := (sel.get? 2).getD "Dinner / relax"
    notes := weather_note_for_day precip tmax tmin i }

/-- The rows list, one per day index in order. -/
def mkRows (sd : Int) (precip tmax tmin : List ℚ) : Nat → List (List String) → List Row
  | _, [] => []
  | i, sel :: rest => rowOfDay sd precip tmax tmin i sel :: mkRows sd precip tmax tmin (i + 1) rest

/-- The markdown table line of one row at a (1-based) day number. -/
def lineOf (i : Nat) (r : Row) : String :=
  "| " ++ toString i ++ " | " ++ r.morning ++ " | " ++ r.afternoon ++ " | " ++
    r.evening ++ " | " ++ r.notes ++ " |"

/-- The rendered table lines, enumerating rows from a starting day number
(the source enumerates from 1). -/
def tableLines : Nat → List Row → List String
  | _, [] => []
  | i, r :: rest => lineOf i r :: tableLines (i + 1) rest

/-- The "Location links" suffix lines shared by the tools. -/
def linksLine (l : Links) : String :=
  "Location links: " ++ l.openstreetmap ++ " | " ++ l.google_maps ++ " | " ++ l.wikipedia_search

/-- itinerary_agent over abstract provider data: geocode failure and date
errors first, then the pool fetch, the day loop and the markdown rendering. -/
def itinerary_agent (city : String) (geo : Option Geo) (sdP edP : Option Int)
    (primary : List POI) (elements : List OElem) (weather : Option WeatherDaily)
    (dl : Nat) : String :=
  match geo with
  | none => "ERROR: Could not geocode '" ++ city ++ "'."
  | some g =>
    match sdP, edP with
    | some sd, some ed =>
      if ed < sd then "ERROR: end_date must be same or after start_date."
      else
        let num_days := (ed - sd).toNat + 1
        let pool_pois := fetch_pois primary elements (max 20 (dl * num_days * 2))
        let poi_lines :=
          if pool_pois.isEmpty then "No POIs found."
          else String.intercalate "\n" (pool_pois.map fun p => "- " ++ p.name ++ " (" ++ p.kinds ++ ")")
        let precip := wPrecip weather
        let tmax := wTmax weather
        let tmin := wTmin weather
        let pool := mkPool pool_pois
        let sels := (runDays pool precip dl (List.range num_days) 0 []).1
        let rows := mkRows sd precip tmax tmin 0 sels
        String.intercalate "\n"
          (["# Itinerary for " ++ g.name, "Dates: " ++ toString sd ++ " to " ++ toString ed, ""] ++
            (if g.category ≠ "" then ["**Place type:** " ++ g.category] else []) ++
            ["**Links:** " ++ g.links.openstreetmap ++ " | " ++ g.links.google_maps ++ " | " ++
              g.links.wikipedia_search] ++
            ["", "## Travel Itinerary", "", "| Day | Morning | Afternoon | Evening | Notes |",
              "|---:|---|---|---|---|"] ++
            tableLines 1 rows ++
            ["", "## POIs considered", poi_lines])
    | _, _ => "ERROR: Dates must be YYYY-MM-DD."

/-- weather_agent over abstract provider data: the date parameters default
(start to today, end to start), parsing is abstracted as an
Option-returning normalizer to ISO strings. -/
def weather_agent (city : String) (geo : Option Geo) (sdP edP : Option String)
    (today : String) (parse : String → Option String) (weather : Option WeatherDaily) : String :=
  match geo with
  | none => "ERROR: Could not geocode '" ++ city ++ "'."
  | some g =>
    let start_date := sdP.getD today
    let end_date := edP.getD start_date
    match parse start_date, parse end_date with
    | some sd, some ed =>
      match weather with
      | none =>
        "WARNING: No weather data for " ++ g.name ++ " between " ++ sd ++ " and " ++ ed ++ "." ++
          " Links: " ++ g.links.openstreetmap ++ " | " ++ g.links.google_maps
      | some w =>
        let times := w.time
        let tmax := w.temperature_2m_max
        let tmin := w.temperature_2m_min
        let prec := w.precipitation_sum
        let showAt := fun (l : List ℚ) (i : Nat) =>
          match l.get? i with
          | some v => toString v
          | none => "N/A"
        String.intercalate "\n"
          (("Weather for " ++ g.name ++ " (" ++ sd ++ " to " ++ ed ++ "):") ::
            ((List.range times.length).map fun i =>
              "- " ++ ((times.get? i).getD "") ++ ": max " ++ showAt tmax i ++ "°C, min " ++
                showAt tmin i ++ "°C, precipitation " ++ showAt prec i ++ " mm") ++
            ["", linksLine g.links])
    | _, _ => "ERROR: Dates must be YYYY-MM-DD."

/-- poi_agent over abstract provider data. -/
def poi_agent (city : String) (geo : Option Geo) (primary : List POI)
    (elements : List OElem) (limit : Nat) : String :=
  match geo with
  | none => "ERROR: Could not geocode '" ++ city ++ "'."
  | some g =>
    let pois := fetch_pois primary elements limit
    if pois.isEmpty then "WARNING: No POIs found for " ++ g.name ++ "."
    else
      String.intercalate "\n"
        (("Top " ++ toString pois.length ++ " POIs near " ++ g.name ++ ":") ::
          ((List.range pois.length).map fun i =>
            match pois.get? i with
            | some p =>
              toString (i + 1) ++ ". " ++ p.name ++ " — kinds: " ++ p.kinds ++ " — dist: " ++
                (match p.dist with
                 | some d => toString d
                 | none => "None")
            | none => "") ++
          ["", linksLine g.links])

/-- Names of pool POIs that are tagged indoor and not yet assigned. -/
def indoorUnassignedNames (pool : List PoolPOI) (asg : List String) : List String :=
  (pool.filter (fun p => p.is_indoor && !(decide (p.name ∈ asg)))).map PoolPOI.name

/-- The selection step of the round-robin loop replayed over an explicit
visit sequence (proof device for relating the cursor loop to the pool). -/
def foldSel (dl : Nat) (rainy : Bool) : List PoolPOI → List String → List String → List String × List String
  | [], sel, asg => (sel, asg)
  | v :: vs, sel, asg =>
    if sel.length < dl then
      if v.name ∈ asg then foldSel dl rainy vs sel asg
      else if rainy && !v.is_indoor then foldSel dl rainy vs sel asg
      else foldSel dl rainy vs (sel ++ [v.name]) (v.name :: asg)
    else (sel, asg)

/-- The sequence of pool elements the round-robin cursor visits in a given
number of attempts starting at a given cursor position. -/
def visitSeq (pool : List PoolPOI) : Nat → Nat → List PoolPOI
  | _, 0 => []
  | idx, fuel + 1 =>
    match pool.get? (idx % max 1 pool.length) with
    | some p => p :: visitSeq pool (idx + 1) fuel
    | none => []

/-! ## Supporting lemmas -/

theorem weather_note_empty (i : Nat) :
    weather_note_for_day [] [] [] i = "No specific weather notes" := by
  simp [weather_note_for_day, noteParts]

theorem mkRows_mem (sd : Int) (precip tmax tmin : List ℚ) :
    ∀ (sels : List (List String)) (i : Nat) (r : Row),
      r ∈ mkRows sd precip tmax tmin i sels →
        ∃ j sel, r = rowOfDay sd precip tmax tmin j sel
  | [], _, _, h => by simp [mkRows] at h
  | sel :: rest, i, r, h => by
    simp only [mkRows, List.mem_cons] at h
    rcases h with h | h
    · exact ⟨i, sel, h⟩
    · exact mkRows_mem sd precip tmax tmin rest (i + 1) r h

theorem mkRows_length (sd : Int) (precip tmax tmin : List ℚ) :
    ∀ (sels : List (List String)) (i : Nat),
      (mkRows sd precip tmax tmin i sels).length = sels.length
  | [], _ => rfl
  | _ :: rest, i => by
    simp [mkRows, mkRows_length sd precip tmax tmin rest (i + 1)]

theorem runDays_length (pool : List PoolPOI) (precip : List ℚ) (dl : Nat) :
    ∀ (ds : List Nat) (idx : Nat) (asg : List String),
      (runDays pool precip dl ds idx asg).1.length = ds.length
  | [], _, _ => rfl
  | _ :: ds, idx, asg => by
    simp [runDays, runDays_length pool precip dl ds]

/-! ## Claim theorems (with their supporting lemmas interleaved) -/

/-- Claim C7: the geocoder's category derivation applies ordered substring
matches on the combined class:type string: beach wins first, then the
mountain keywords, then the city keywords, then water, else other; in
particular natural:peak maps to mountain/hill and natural:beach to beach.
Each branch of the table and the priority order are exercised, and the
result is always one of the five categories. -/
theorem geocode_category_derivation :
    (deriveCategory "natural" "peak" = "mountain/hill" ∧
      deriveCategory "natural" "beach" = "beach" ∧
      deriveCategory "natural" "mountain" = "mountain/hill" ∧
      deriveCategory "natural" "hill" = "mountain/hill" ∧
      deriveCategory "natural" "ridge" = "mountain/hill" ∧
      deriveCategory "natural" "valley" = "mountain/hill" ∧
      deriveCategory "natural" "mountain_range" = "mountain/hill" ∧
      deriveCategory "place" "city" = "city" ∧
      deriveCategory "place" "town" = "city" ∧
      deriveCategory "place" "village" = "city" ∧
      deriveCategory "boundary" "county" = "city" ∧
      deriveCategory "natural" "water" = "water" ∧
      deriveCategory "waterway" "river" = "water" ∧
      deriveCategory "boundary" "administrative" = "other" ∧
      deriveCategory "water" "beach" = "beach" ∧
      deriveCategory "city" "peak" = "mountain/hill" ∧
      deriveCategory "city" "water" = "city") ∧
    ∀ fclass ftype, deriveCategory fclass ftype ∈
      (["beach", "mountain/hill", "city", "water", "other"] : List String) := by
  refine ⟨by decide, ?_⟩
  intro fclass ftype
  simp only [deriveCategory]
  repeat' split
  all_goals simp

/-- Claim C4: when the weather fetch degrades to empty data, no day is ever
rainy (the rain exclusion cannot trigger) and every rendered day's notes are
the neutral message; a one-day plan yields exactly one such day. -/
theorem empty_weather_neutral_notes :
    (∀ i, rainyAt (wPrecip none) i = false) ∧
    (∀ (pool : List PoolPOI) (sd : Int) (dl numDays : Nat),
      ∀ r ∈ mkRows sd (wPrecip none) (wTmax none) (wTmin none) 0
          (itinerarySelections pool (wPrecip none) dl numDays),
        r.notes = "No specific weather notes") ∧
    (∀ (pool : List PoolPOI) (sd : Int) (dl : Nat),
      (mkRows sd (wPrecip none) (wTmax none) (wTmin none) 0
          (itinerarySelections pool (wPrecip none) dl 1)).length = 1) := by
  refine ⟨fun i => rfl, ?_, ?_⟩
  · intro pool sd dl numDays r hr
    obtain ⟨j, sel, rfl⟩ := mkRows_mem _ _ _ _ _ _ _ hr
    simpa [rowOfDay, wPrecip, wTmax, wTmin] using weather_note_empty j
  · intro pool sd dl
    rw [mkRows_length, itinerarySelections, runDays_length]
    rfl

/-- Claim C10: a blank (empty or whitespace-only) place resolves to NotFound
immediately, for every possible provider behaviour (so no provider query can
influence the outcome), and each of the three tools then reports the
could-not-geocode error naming the place. -/
theorem blank_place_not_found (otm nom : String → Option Geo) (place : String)
    (sdP edP : Option Int) (sdS edS : Option String) (today : String)
    (parse : String → Option String) (primary : List POI) (elements : List OElem)
    (weather : Option WeatherDaily) (dl limit : Nat)
    (h : strTrim place = "") :
    geocode_city otm nom place = none ∧
    itinerary_agent place (geocode_city otm nom place) sdP edP primary elements weather dl =
      "ERROR: Could not geocode '" ++ place ++ "'." ∧
    weather_agent place (geocode_city otm nom place) sdS edS today parse weather =
      "ERROR: Could not geocode '" ++ place ++ "'." ∧
    poi_agent place (geocode_city otm nom place) primary elements limit =
      "ERROR: Could not geocode '" ++ place ++ "'." := by
  have hg : geocode_city otm nom place = none := by
    simp [geocode_city, h]
  refine ⟨hg, ?_, ?_, ?_⟩ <;> rw [hg] <;> rfl

/-- Claim C10 witness: three spaces trim to the empty string, and the tools
report the geocode error. -/
theorem blank_place_not_found_witness :
    geocode_city (fun _ => none) (fun _ => none) "   " = none ∧
    itinerary_agent "   " (geocode_city (fun _ => none) (fun _ => none) "   ")
        (some 0) (some 0) [] [] none 3 =
      "ERROR: Could not geocode '" ++ "   " ++ "'." ∧
    weather_agent "   " (geocode_city (fun _ => none) (fun _ => none) "   ")
        none none "2024-01-01" (fun s => some s) none =
      "ERROR: Could not geocode '" ++ "   " ++ "'." ∧
    poi_agent "   " (geocode_city (fun _ => none) (fun _ => none) "   ") [] [] 8 =
      "ERROR: Could not geocode '" ++ "   " ++ "'." :=
  blank_place_not_found (fun _ => none) (fun _ => none) "   " (some 0) (some 0)
    none none "2024-01-01" (fun s => some s) [] [] none 3 8 (by decide)

theorem precipNote_ne_hot (pr : ℚ) : precipNote pr ≠ "Hot during day" := by
  unfold precipNote
  repeat' split
  all_goals decide

theorem precipNote_ne_cool (pr : ℚ) : precipNote pr ≠ "Cool day — bring a jacket" := by
  unfold precipNote
  repeat' split
  all_goals decide

theorem hot_ne_precipNote (pr : ℚ) : "Hot during day" ≠ precipNote pr :=
  (precipNote_ne_hot pr).symm

theorem cool_ne_precipNote (pr : ℚ) : "Cool day — bring a jacket" ≠ precipNote pr :=
  (precipNote_ne_cool pr).symm

/-- Claim C8: when index i has both a max and a min temperature, the notes
include the hot-day message exactly when max is at least 30°C, the cool-day
message exactly when max is at most 15°C, and no temperature message in
between; and whenever no note parts apply, the notes equal the neutral
message. -/
theorem temperature_note_by_max (precip tmax tmin : List ℚ) (i : Nat)
    (hx : i < tmax.length) (hn : i < tmin.length) :
    ((30 ≤ tmax.get ⟨i, hx⟩) →
      "Hot during day" ∈ noteParts precip tmax tmin i ∧
      "Cool day — bring a jacket" ∉ noteParts precip tmax tmin i) ∧
    ((tmax.get ⟨i, hx⟩ < 30) → (tmax.get ⟨i, hx⟩ ≤ 15) →
      "Cool day — bring a jacket" ∈ noteParts precip tmax tmin i ∧
      "Hot during day" ∉ noteParts precip tmax tmin i) ∧
    ((15 < tmax.get ⟨i, hx⟩) → (tmax.get ⟨i, hx⟩ < 30) →
      "Hot during day" ∉ noteParts precip tmax tmin i ∧
      "Cool day — bring a jacket" ∉ noteParts precip tmax tmin i) ∧
    (noteParts precip tmax tmin i = [] →
      weather_note_for_day precip tmax tmin i = "No specific weather notes") := by
  have hget : tmax.get? i = some (tmax.get ⟨i, hx⟩) := List.get?_eq_get hx
  have hget' : tmin.get? i = some (tmin.get ⟨i, hn⟩) := List.get?_eq_get hn
  set mx := tmax.get ⟨i, hx⟩ with hmx
  refine ⟨?_, ?_, ?_, ?_⟩
  · intro h30
    unfold noteParts
    rw [hget, hget']
    constructor
    · cases hp : precip.get? i <;>
        simp [h30, List.mem_append]
    · cases hp : precip.get? i <;>
        simp [h30, List.mem_append, cool_ne_precipNote]
  · intro hlt h15
    unfold noteParts
    rw [hget, hget']
    have h30 : ¬(30 ≤ mx) := not_le.mpr hlt
    constructor
    · cases hp : precip.get? i <;>
        simp [h30, h15, List.mem_append]
    · cases hp : precip.get? i <;>
        simp [h30, h15, List.mem_append, hot_ne_precipNote]
  · intro h15 hlt
    unfold noteParts
    rw [hget, hget']
    have h30 : ¬(30 ≤ mx) := not_le.mpr hlt
    have h15' : ¬(mx ≤ 15) := not_le.mpr h15
    constructor <;>
      cases hp : precip.get? i <;>
        simp [h30, h15', List.mem_append, hot_ne_precipNote, cool_ne_precipNote]
  · intro hparts
    simp [weather_note_for_day, hparts]

/-- Claim C8 witness: with one day of data, max 32 yields the hot note, and
the theorem's instantiated conclusion holds. -/
theorem temperature_note_by_max_witness :
    ((30 ≤ ([32] : List ℚ).get ⟨0, by decide⟩) →
      "Hot during day" ∈ noteParts [1] [32] [20] 0 ∧
      "Cool day — bring a jacket" ∉ noteParts [1] [32] [20] 0) ∧
    ((([32] : List ℚ).get ⟨0, by decide⟩ < 30) → (([32] : List ℚ).get ⟨0, by decide⟩ ≤ 15) →
      "Cool day — bring a jacket" ∈ noteParts [1] [32] [20] 0 ∧
      "Hot during day" ∉ noteParts [1] [32] [20] 0) ∧
    ((15 < ([32] : List ℚ).get ⟨0, by decide⟩) → (([32] : List ℚ).get ⟨0, by decide⟩ < 30) →
      "Hot during day" ∉ noteParts [1] [32] [20] 0 ∧
      "Cool day — bring a jacket" ∉ noteParts [1] [32] [20] 0) ∧
    (noteParts [1] [32] [20] 0 = [] →
      weather_note_for_day [1] [32] [20] 0 = "No specific weather notes") :=
  temperature_note_by_max [1] [32] [20] 0 (by decide) (by decide)

theorem mkRows_get? (sd : Int) (precip tmax tmin : List ℚ) :
    ∀ (sels : List (List String)) (i j : Nat),
      (mkRows sd precip tmax tmin i sels).get? j =
        (sels.get? j).map (fun sel => rowOfDay sd precip tmax tmin (i + j) sel)
  | [], _, j => by simp [mkRows]
  | sel :: rest, i, 0 => by simp [mkRows]
  | sel :: rest, i, j + 1 => by
    simp only [mkRows, List.get?_cons_succ]
    rw [mkRows_get? sd precip tmax tmin rest (i + 1) j,
      show i + 1 + j = i + (j + 1) from by omega]

theorem tableLines_get? :
    ∀ (rows : List Row) (i j : Nat),
      (tableLines i rows).get? j = (rows.get? j).map (fun r => lineOf (i + j) r)
  | [], _, j => by simp [tableLines]
  | r :: rest, i, 0 => by simp [tableLines]
  | r :: rest, i, j + 1 => by
    simp only [tableLines, List.get?_cons_succ]
    rw [tableLines_get? rest (i + 1) j,
      show i + 1 + j = i + (j + 1) from by omega]

theorem tableLines_length :
    ∀ (rows : List Row) (i : Nat), (tableLines i rows).length = rows.length
  | [], _ => rfl
  | _ :: rest, i => by simp [tableLines, tableLines_length rest (i + 1)]

/-- Claim C1: for a geocoded place and a valid date pair the planner emits
exactly (end - start) + 1 day rows; row i carries date start + i (so the
dates are consecutive ascending calendar days without gaps or duplicates),
and the rendered table line for row i carries the 1-indexed day number
i + 1. -/
theorem itinerary_day_rows_count_and_dates (pool : List PoolPOI)
    (precip tmax tmin : List ℚ) (sd ed : Int) (dl : Nat) (h : sd ≤ ed) :
    (mkRows sd precip tmax tmin 0
        (itinerarySelections pool precip dl ((ed - sd).toNat + 1))).length =
      (ed - sd).toNat + 1 ∧
    ((mkRows sd precip tmax tmin 0
        (itinerarySelections pool precip dl ((ed - sd).toNat + 1))).length : Int) =
      (ed - sd) + 1 ∧
    (∀ (i : Nat) (hi : i < (mkRows sd precip tmax tmin 0
        (itinerarySelections pool precip dl ((ed - sd).toNat + 1))).length),
      ((mkRows sd precip tmax tmin 0
          (itinerarySelections pool precip dl ((ed - sd).toNat + 1))).get ⟨i, hi⟩).date =
        sd + i) ∧
    (tableLines 1 (mkRows sd precip tmax tmin 0
        (itinerarySelections pool precip dl ((ed - sd).toNat + 1)))).length =
      (ed - sd).toNat + 1 ∧
    (∀ (i : Nat) (hi : i < (mkRows sd precip tmax tmin 0
        (itinerarySelections pool precip dl ((ed - sd).toNat + 1))).length),
      (tableLines 1 (mkRows sd precip tmax tmin 0
          (itinerarySelections pool precip dl ((ed - sd).toNat + 1)))).get? i =
        some (lineOf (i + 1)
          ((mkRows sd precip tmax tmin 0
            (itinerarySelections pool precip dl ((ed - sd).toNat + 1))).get ⟨i, hi⟩))) := by
  have hlen : (mkRows sd precip tmax tmin 0
      (itinerarySelections pool precip dl ((ed - sd).toNat + 1))).length =
      (ed - sd).toNat + 1 := by
    rw [mkRows_length, itinerarySelections, runDays_length, List.length_range]
  refine ⟨hlen, ?_, ?_, ?_, ?_⟩
  · rw [hlen]
    push_cast
    rw [Int.toNat_of_nonneg (by omega)]
  · intro i hi
    have hsl : i < (itinerarySelections pool precip dl ((ed - sd).toNat + 1)).length := by
      rw [itinerarySelections, runDays_length, List.length_range]
      omega
    have := mkRows_get? sd precip tmax tmin
      (itinerarySelections pool precip dl ((ed - sd).toNat + 1)) 0 i
    rw [List.get?_eq_get hi, List.get?_eq_get hsl] at this
    simp only [Option.map_some'] at this
    have hrow := Option.some.inj this
    rw [hrow]
    simp [rowOfDay]
  · rw [tableLines_length, hlen]
  · intro i hi
    have := tableLines_get? (mkRows sd precip tmax tmin 0
      (itinerarySelections pool precip dl ((ed - sd).toNat + 1))) 1 i
    rw [List.get?_eq_get hi] at this
    simp only [Option.map_some'] at this
    rw [this, Nat.add_comm 1 i]

/-- Claim C1 witness: a two-day range (ordinals 10 to 11) on a tiny pool. -/
theorem itinerary_day_rows_count_and_dates_witness :
    (10 : Int) ≤ 11 ∧
    (mkRows 10 [] [] [] 0
        (itinerarySelections (mkPool [⟨"A", "museum", none⟩]) [] 3 (((11 : Int) - 10).toNat + 1))).length =
      ((11 : Int) - 10).toNat + 1 :=
  ⟨by decide, (itinerary_day_rows_count_and_dates (mkPool [⟨"A", "museum", none⟩])
    [] [] [] 10 11 3 (by decide)).1⟩

theorem rrLoop_inv (pool : List PoolPOI) (rainy : Bool) (dl : Nat) (asg0 : List String) :
    ∀ (fuel idx : Nat) (sel asg : List String),
      sel.Nodup → (∀ x, x ∈ asg ↔ x ∈ asg0 ∨ x ∈ sel) →
      ∃ t, (rrLoop pool rainy dl fuel idx sel asg).1 = sel ++ t ∧
        (∀ x ∈ t, x ∉ asg0) ∧
        (rrLoop pool rainy dl fuel idx sel asg).1.Nodup ∧
        (∀ x, x ∈ (rrLoop pool rainy dl fuel idx sel asg).2.1 ↔
          x ∈ asg0 ∨ x ∈ (rrLoop pool rainy dl fuel idx sel asg).1)
  | 0, idx, sel, asg, hnd, hiff =>
    ⟨[], by simp [rrLoop], by simp, by simpa [rrLoop] using hnd, by simpa [rrLoop] using hiff⟩
  | fuel + 1, idx, sel, asg, hnd, hiff => by
    simp only [rrLoop]
    by_cases hlen : sel.length < dl
    · simp only [if_pos hlen]
      cases hget : pool.get? (idx % max 1 pool.length) with
      | none =>
        exact ⟨[], by simp, by simp, hnd, hiff⟩
      | some p =>
        by_cases hasg : p.name ∈ asg
        · simp only [if_pos hasg]
          exact rrLoop_inv pool rainy dl asg0 fuel (idx + 1) sel asg hnd hiff
        · simp only [if_neg hasg]
          by_cases hrain : (rainy && !p.is_indoor) = true
          · simp only [if_pos hrain]
            exact rrLoop_inv pool rainy dl asg0 fuel (idx + 1) sel asg hnd hiff
          · simp only [if_neg hrain]
            have hnsel : p.name ∉ sel := fun hmem => hasg ((hiff p.name).mpr (Or.inr hmem))
            have hnd' : (sel ++ [p.name]).Nodup := by
              rw [List.nodup_append]
              exact ⟨hnd, List.nodup_singleton _,
                fun x hx hx' => hnsel ((List.mem_singleton.mp hx') ▸ hx)⟩
            have hiff' : ∀ x, x ∈ p.name :: asg ↔ x ∈ asg0 ∨ x ∈ sel ++ [p.name] := by
              intro x
              simp only [List.mem_cons, List.mem_append, List.mem_singleton, hiff x]
              tauto
            obtain ⟨t, ht1, ht2, ht3, ht4⟩ :=
              rrLoop_inv pool rainy dl asg0 fuel (idx + 1) (sel ++ [p.name]) (p.name :: asg) hnd' hiff'
            refine ⟨p.name :: t, ?_, ?_, ht3, ht4⟩
            · rw [ht1, List.append_assoc]
              rfl
            · intro x hx
              rcases List.mem_cons.mp hx with rfl | hx
              · exact fun hx0 => hasg ((hiff p.name).mpr (Or.inl hx0))
              · exact ht2 x hx
    · simp only [if_neg hlen]
      exact ⟨[], by simp, by simp, hnd, hiff⟩

theorem backfill_inv (dl : Nat) (asg0 : List String) :
    ∀ (ps : List PoolPOI) (sel asg : List String),
      sel.Nodup → (∀ x, x ∈ asg ↔ x ∈ asg0 ∨ x ∈ sel) →
      ∃ t, (backfill dl ps sel asg).1 = sel ++ t ∧
        (∀ x ∈ t, x ∉ asg0) ∧
        (backfill dl ps sel asg).1.Nodup ∧
        (∀ x, x ∈ (backfill dl ps sel asg).2 ↔
          x ∈ asg0 ∨ x ∈ (backfill dl ps sel asg).1)
  | [], sel, asg, hnd, hiff =>
    ⟨[], by simp [backfill], by simp, by simpa [backfill] using hnd, by simpa [backfill] using hiff⟩
  | p :: rest, sel, asg, hnd, hiff => by
    simp only [backfill]
    by_cases hasg : p.name ∈ asg
    · simp only [if_pos hasg]
      exact backfill_inv dl asg0 rest sel asg hnd hiff
    · simp only [if_neg hasg]
      have hnsel : p.name ∉ sel := fun hmem => hasg ((hiff p.name).mpr (Or.inr hmem))
      have hnd' : (sel ++ [p.name]).Nodup := by
        rw [List.nodup_append]
        exact ⟨hnd, List.nodup_singleton _,
          fun x hx hx' => hnsel ((List.mem_singleton.mp hx') ▸ hx)⟩
      have hiff' : ∀ x, x ∈ p.name :: asg ↔ x ∈ asg0 ∨ x ∈ sel ++ [p.name] := by
        intro x
        simp only [List.mem_cons, List.mem_append, List.mem_singleton, hiff x]
        tauto
      have hnew : ∀ x ∈ [p.name], x ∉ asg0 :=
        fun x hx => (List.mem_singleton.mp hx) ▸ fun hx0 => hasg ((hiff p.name).mpr (Or.inl hx0))
      by_cases hstop : dl ≤ (sel ++ [p.name]).length
      · simp only [if_pos hstop]
        exact ⟨[p.name], rfl, hnew, hnd', hiff'⟩
      · simp only [if_neg hstop]
        obtain ⟨t, ht1, ht2, ht3, ht4⟩ := backfill_inv dl asg0 rest (sel ++ [p.name]) (p.name :: asg) hnd' hiff'
        refine ⟨p.name :: t, ?_, ?_, ht3, ht4⟩
        · rw [ht1, List.append_assoc]
          rfl
        · intro x hx
          rcases List.mem_cons.mp hx with rfl | hx
          · exact fun hx0 => hasg ((hiff p.name).mpr (Or.inl hx0))
          · exact ht2 x hx

theorem processDay_inv (pool : List PoolPOI) (precip : List ℚ) (dl dayIndex idx : Nat)
    (asg : List String) :
    (processDay pool precip dl dayIndex idx asg).1.Nodup ∧
    (∀ x ∈ (processDay pool precip dl dayIndex idx asg).1, x ∉ asg) ∧
    (∀ x, x ∈ (processDay pool precip dl dayIndex idx asg).2.1 ↔
      x ∈ asg ∨ x ∈ (processDay pool precip dl dayIndex idx asg).1) := by
  have hbase : ∀ x, x ∈ asg ↔ x ∈ asg ∨ x ∈ ([] : List String) := by simp
  obtain ⟨t, ht1, ht2, ht3, ht4⟩ :=
    rrLoop_inv pool (rainyAt precip dayIndex) dl asg (rrBound pool) idx [] asg
      List.nodup_nil hbase
  unfold processDay
  set r := rrLoop pool (rainyAt precip dayIndex) dl (rrBound pool) idx [] asg with hr
  by_cases hlen : r.1.length < dl
  · simp only [if_pos hlen]
    obtain ⟨t2, hb1, hb2, hb3, hb4⟩ := backfill_inv dl asg pool r.1 r.2.1 ht3 ht4
    refine ⟨hb3, ?_, hb4⟩
    intro x hx
    rw [hb1] at hx
    rcases List.mem_append.mp hx with hx | hx
    · rw [ht1] at hx
      simp only [List.nil_append] at hx
      exact ht2 x hx
    · exact hb2 x hx
  · simp only [if_neg hlen]
    refine ⟨ht3, ?_, ht4⟩
    intro x hx
    rw [ht1] at hx
    simp only [List.nil_append] at hx
    exact ht2 x hx

theorem runDays_inv (pool : List PoolPOI) (precip : List ℚ) (dl : Nat) :
    ∀ (ds : List Nat) (idx : Nat) (asg : List String),
      (runDays pool precip dl ds idx asg).1.flatten.Nodup ∧
      (∀ x ∈ (runDays pool precip dl ds idx asg).1.flatten, x ∉ asg) ∧
      (∀ x, x ∈ (runDays pool precip dl ds idx asg).2.1 ↔
        x ∈ asg ∨ x ∈ (runDays pool precip dl ds idx asg).1.flatten)
  | [], idx, asg => by
    refine ⟨by simp [runDays], by simp [runDays], ?_⟩
    intro x
    simp [runDays]
  | d :: ds, idx, asg => by
    obtain ⟨hp1, hp2, hp3⟩ := processDay_inv pool precip dl d idx asg
    simp only [runDays]
    set r := processDay pool precip dl d idx asg with hr
    obtain ⟨hr1, hr2, hr3⟩ := runDays_inv pool precip dl ds r.2.2 r.2.1
    set rest := runDays pool precip dl ds r.2.2 r.2.1 with hrest
    have hnotasg' : ∀ x ∈ r.1, x ∈ r.2.1 := fun x hx => (hp3 x).mpr (Or.inr hx)
    refine ⟨?_, ?_, ?_⟩
    · simp only [List.flatten_cons]
      rw [List.nodup_append]
      refine ⟨hp1, hr1, ?_⟩
      intro x hx hx'
      exact hr2 x hx' (hnotasg' x hx)
    · intro x hx
      simp only [List.flatten_cons, List.mem_append] at hx
      rcases hx with hx | hx
      · exact hp2 x hx
      · intro hxasg
        exact hr2 x hx ((hp3 x).mpr (Or.inl hxasg))
    · intro x
      simp only [List.flatten_cons, List.mem_append]
      rw [hr3 x, hp3 x]
      tauto

/-- Claim C2: across one whole planning run, the per-day selected POI names
are globally pairwise distinct: no name appears twice, whether in two slots
of one day or in slots of different days, through both the round-robin pass
and the backfill pass. -/
theorem itinerary_assignment_globally_unique (pool : List PoolPOI) (precip : List ℚ)
    (dl numDays : Nat) :
    (itinerarySelections pool precip dl numDays).flatten.Nodup :=
  (runDays_inv pool precip dl (List.range numDays) 0 []).1

theorem rrLoop_len_le (pool : List PoolPOI) (rainy : Bool) (dl : Nat) :
    ∀ (fuel idx : Nat) (sel asg : List String), sel.length ≤ dl →
      (rrLoop pool rainy dl fuel idx sel asg).1.length ≤ dl
  | 0, idx, sel, asg, hle => by simpa [rrLoop] using hle
  | fuel + 1, idx, sel, asg, hle => by
    simp only [rrLoop]
    by_cases hlen : sel.length < dl
    · simp only [if_pos hlen]
      cases hget : pool.get? (idx % max 1 pool.length) with
      | none => simpa using hle
      | some p =>
        by_cases hasg : p.name ∈ asg
        · simp only [if_pos hasg]
          exact rrLoop_len_le pool rainy dl fuel (idx + 1) sel asg hle
        · simp only [if_neg hasg]
          by_cases hrain : (rainy && !p.is_indoor) = true
          · simp only [if_pos hrain]
            exact rrLoop_len_le pool rainy dl fuel (idx + 1) sel asg hle
          · simp only [if_neg hrain]
            exact rrLoop_len_le pool rainy dl fuel (idx + 1) (sel ++ [p.name]) (p.name :: asg)
              (by simp; omega)
    · simp only [if_neg hlen]
      exact hle

theorem backfill_len_le (dl : Nat) :
    ∀ (ps : List PoolPOI) (sel asg : List String), sel.length < dl →
      (backfill dl ps sel asg).1.length ≤ dl
  | [], sel, asg, hlt => by simp [backfill]; omega
  | p :: rest, sel, asg, hlt => by
    simp only [backfill]
    by_cases hasg : p.name ∈ asg
    · simp only [if_pos hasg]
      exact backfill_len_le dl rest sel asg hlt
    · simp only [if_neg hasg]
      by_cases hstop : dl ≤ (sel ++ [p.name]).length
      · simp only [if_pos hstop]
        simp
        omega
      · simp only [if_neg hstop]
        exact backfill_len_le dl rest (sel ++ [p.name]) (p.name :: asg) (by simp at hstop ⊢; omega)

theorem processDay_len_le (pool : List PoolPOI) (precip : List ℚ) (dl dayIndex idx : Nat)
    (asg : List String) : (processDay pool precip dl dayIndex idx asg).1.length ≤ dl := by
  unfold processDay
  set r := rrLoop pool (rainyAt precip dayIndex) dl (rrBound pool) idx [] asg with hr
  by_cases hlen : r.1.length < dl
  · simp only [if_pos hlen]
    exact backfill_len_le dl pool r.1 r.2.1 hlen
  · simp only [if_neg hlen]
    exact rrLoop_len_le pool (rainyAt precip dayIndex) dl (rrBound pool) idx [] asg (by simp)

theorem runDays_sel_le (pool : List PoolPOI) (precip : List ℚ) (dl : Nat) :
    ∀ (ds : List Nat) (idx : Nat) (asg : List String) (sel : List String),
      sel ∈ (runDays pool precip dl ds idx asg).1 → sel.length ≤ dl
  | [], idx, asg, sel, h => by simp [runDays] at h
  | d :: ds, idx, asg, sel, h => by
    simp only [runDays, List.mem_cons] at h
    rcases h with rfl | h
    · exact processDay_len_le pool precip dl d idx asg
    · exact runDays_sel_le pool precip dl ds _ _ sel h

/-- Claim C9: a POI selected for a day at position three or beyond (possible
when daily_limit exceeds 3) maps to no morning/afternoon/evening slot of any
day (those are the first three selections of a day), is nonetheless in the
final assigned set, and never reappears in any other day's selections; a
day's selection list never exceeds daily_limit. -/
theorem overflow_pois_not_in_slots (pool : List PoolPOI) (precip : List ℚ)
    (dl numDays k : Nat) (n : String) (hdl : 3 < dl) (hk : k < numDays)
    (hn : n ∈ ((itinerarySelections pool precip dl numDays).getD k []).drop 3) :
    (∀ m, n ∉ ((itinerarySelections pool precip dl numDays).getD m []).take 3) ∧
    (∀ m, m ≠ k → n ∉ (itinerarySelections pool precip dl numDays).getD m []) ∧
    n ∈ finalAssigned pool precip dl numDays ∧
    ((itinerarySelections pool precip dl numDays).getD k []).length ≤ dl := by
  have hlen : (itinerarySelections pool precip dl numDays).length = numDays := by
    rw [itinerarySelections, runDays_length, List.length_range]
  set sels := itinerarySelections pool precip dl numDays with hsels
  have hk' : k < sels.length := by omega
  have hgetk : sels.getD k [] = sels.get ⟨k, hk'⟩ := by
    rw [List.getD_eq_get?, List.get?_eq_get hk']
    rfl
  have hflat : sels.flatten.Nodup := itinerary_assignment_globally_unique pool precip dl numDays
  have hparts := List.nodup_flatten.mp hflat
  have hdropsub : n ∈ sels.get ⟨k, hk'⟩ := by
    rw [hgetk] at hn
    exact List.drop_subset 3 _ hn
  have hmemk : sels.get ⟨k, hk'⟩ ∈ sels := List.get_mem sels k hk'
  have hdisj : ∀ (m : Nat) (hm : m < sels.length), m ≠ k →
      n ∉ sels.get ⟨m, hm⟩ := by
    intro m hm hmk hcon
    have hpw := hparts.2
    rcases Nat.lt_or_ge m k with hlt | hge
    · have := (List.pairwise_iff_get.mp hpw) ⟨m, hm⟩ ⟨k, hk'⟩ hlt
      exact this hcon hdropsub
    · have hklt : k < m := by omega
      have := (List.pairwise_iff_get.mp hpw) ⟨k, hk'⟩ ⟨m, hm⟩ hklt
      exact this hdropsub hcon
  have hout : ∀ m, m ≥ sels.length → sels.getD m [] = [] := by
    intro m hm
    rw [List.getD_eq_get?, List.get?_eq_none.mpr hm]
    rfl
  refine ⟨?_, ?_, ?_, ?_⟩
  · intro m hmem
    rcases Nat.lt_or_ge m sels.length with hm | hm
    · have hgetm : sels.getD m [] = sels.get ⟨m, hm⟩ := by
        rw [List.getD_eq_get?, List.get?_eq_get hm]
        rfl
      rw [hgetm] at hmem
      have hmemday : n ∈ sels.get ⟨m, hm⟩ := List.take_subset 3 _ hmem
      by_cases hmk : m = k
      · subst hmk
        have hnd : (sels.get ⟨m, hm⟩).Nodup := hparts.1 _ hmemk
        have hsplit := List.take_append_drop 3 (sels.get ⟨m, hm⟩)
        rw [← hsplit] at hnd
        have hdisj2 := (List.nodup_append.mp hnd).2.2
        have hn' : n ∈ (sels.get ⟨m, hm⟩).drop 3 := by
          rw [hgetk] at hn
          exact hn
        exact hdisj2 hmem hn'
      · exact hdisj m hm hmk hmemday
    · rw [hout m hm] at hmem
      simp at hmem
  · intro m hmk
    rcases Nat.lt_or_ge m sels.length with hm | hm
    · have hgetm : sels.getD m [] = sels.get ⟨m, hm⟩ := by
        rw [List.getD_eq_get?, List.get?_eq_get hm]
        rfl
      rw [hgetm]
      exact hdisj m hm hmk
    · rw [hout m hm]
      simp
  · have hinv := (runDays_inv pool precip dl (List.range numDays) 0 []).2.2 n
    have hmemflat : n ∈ sels.flatten := List.mem_flatten.mpr ⟨_, hmemk, hdropsub⟩
    exact hinv.mpr (Or.inr hmemflat)
  · rw [hgetk]
    exact runDays_sel_le pool precip dl (List.range numDays) 0 [] _ hmemk

/-- Claim C9 witness: with daily_limit 4 over five POIs and two days, the
first day selects four POIs; the fourth, D, maps to no slot anywhere, stays
assigned, and is excluded from day two. -/
theorem overflow_pois_not_in_slots_witness :
    (∀ m, "D" ∉ ((itinerarySelections (mkPool [⟨"A", "museum", none⟩, ⟨"B", "museum", none⟩,
      ⟨"C", "park", none⟩, ⟨"D", "park", none⟩, ⟨"E", "fort", none⟩]) [] 4 2).getD m []).take 3) ∧
    (∀ m, m ≠ 0 → "D" ∉ (itinerarySelections (mkPool [⟨"A", "museum", none⟩, ⟨"B", "museum", none⟩,
      ⟨"C", "park", none⟩, ⟨"D", "park", none⟩, ⟨"E", "fort", none⟩]) [] 4 2).getD m []) ∧
    "D" ∈ finalAssigned (mkPool [⟨"A", "museum", none⟩, ⟨"B", "museum", none⟩,
      ⟨"C", "park", none⟩, ⟨"D", "park", none⟩, ⟨"E", "fort", none⟩]) [] 4 2 ∧
    ((itinerarySelections (mkPool [⟨"A", "museum", none⟩, ⟨"B", "museum", none⟩,
      ⟨"C", "park", none⟩, ⟨"D", "park", none⟩, ⟨"E", "fort", none⟩]) [] 4 2).getD 0 []).length ≤ 4 :=
  overflow_pois_not_in_slots (mkPool [⟨"A", "museum", none⟩, ⟨"B", "museum", none⟩,
    ⟨"C", "park", none⟩, ⟨"D", "park", none⟩, ⟨"E", "fort", none⟩]) [] 4 2 0 "D"
    (by decide) (by decide) (by decide)

theorem rrLoop_skip (pool : List PoolPOI) (rainy : Bool) (dl : Nat) (asg : List String)
    (hskip : ∀ p ∈ pool, p.name ∈ asg ∨ (rainy = true ∧ p.is_indoor = false)) :
    ∀ (fuel idx : Nat) (sel : List String),
      (rrLoop pool rainy dl fuel idx sel asg).1 = sel
  | 0, idx, sel => by simp [rrLoop]
  | fuel + 1, idx, sel => by
    simp only [rrLoop]
    by_cases hlen : sel.length < dl
    · simp only [if_pos hlen]
      cases hget : pool.get? (idx % max 1 pool.length) with
      | none => rfl
      | some p =>
        have hp : p ∈ pool := List.get?_mem hget
        by_cases hasg : p.name ∈ asg
        · simp only [if_pos hasg]
          exact rrLoop_skip pool rainy dl asg hskip fuel (idx + 1) sel
        · simp only [if_neg hasg]
          have hrain : (rainy && !p.is_indoor) = true := by
            rcases hskip p hp with h | ⟨h1, h2⟩
            · exact absurd h hasg
            · simp [h1, h2]
          simp only [if_pos hrain]
          exact rrLoop_skip pool rainy dl asg hskip fuel (idx + 1) sel
    · simp only [if_neg hlen]

/-- Claim C6: with the source's attempt budget of 2 * max(1, pool size), the
per-day round-robin selection pass always returns after consuming at most
that many attempts; on an empty pool it stops after one attempt selecting
nothing, and it also stops selecting nothing when every pool POI is already
assigned or (on a rainy day) every pool POI is outdoor. -/
theorem round_robin_attempts_bounded (pool : List PoolPOI) (rainy : Bool)
    (dl idx : Nat) (asg : List String) :
    (rrBound pool - (rrLoop pool rainy dl (rrBound pool) idx [] asg).2.2.2 ≤
      2 * max 1 pool.length) ∧
    (pool = [] → (rrLoop pool rainy dl (rrBound pool) idx [] asg).1 = [] ∧
      rrBound pool - (rrLoop pool rainy dl (rrBound pool) idx [] asg).2.2.2 ≤ 1) ∧
    ((∀ p ∈ pool, p.name ∈ asg) →
      (rrLoop pool rainy dl (rrBound pool) idx [] asg).1 = []) ∧
    ((rainy = true ∧ ∀ p ∈ pool, p.is_indoor = false) →
      (rrLoop pool rainy dl (rrBound pool) idx [] asg).1 = []) := by
  refine ⟨?_, ?_, ?_, ?_⟩
  · calc rrBound pool - (rrLoop pool rainy dl (rrBound pool) idx [] asg).2.2.2 ≤
        rrBound pool := Nat.sub_le _ _
    _ = 2 * max 1 pool.length := by rw [rrBound, Nat.mul_comm]
  · rintro rfl
    by_cases hdl : 0 < dl
    · constructor
      · simp [rrLoop, rrBound, hdl]
      · simp [rrLoop, rrBound, hdl]
    · constructor
      · simp [rrLoop, rrBound, hdl]
      · simp [rrLoop, rrBound, hdl]
  · intro h
    exact rrLoop_skip pool rainy dl asg (fun p hp => Or.inl (h p hp)) (rrBound pool) idx []
  · rintro ⟨h1, h2⟩
    exact rrLoop_skip pool rainy dl asg (fun p hp => Or.inr ⟨h1, h2 p hp⟩) (rrBound pool) idx []

/-- Claim C6 witness: instances of the bound and of the stopping behaviour
for an empty pool, a fully assigned pool, and a rainy all-outdoor pool. -/
theorem round_robin_attempts_bounded_witness :
    (rrBound [] - (rrLoop [] true 3 (rrBound []) 0 [] []).2.2.2 ≤ 2 * max 1 ([] : List PoolPOI).length) ∧
    ((rrLoop [] true 3 (rrBound []) 0 [] []).1 = [] ∧
      rrBound [] - (rrLoop [] true 3 (rrBound []) 0 [] []).2.2.2 ≤ 1) ∧
    (rrLoop [⟨"A", true, "museum"⟩] false 3 (rrBound [⟨"A", true, "museum"⟩]) 0 [] ["A"]).1 = [] ∧
    (rrLoop [⟨"B", false, "park"⟩] true 3 (rrBound [⟨"B", false, "park"⟩]) 5 [] []).1 = [] :=
  ⟨(round_robin_attempts_bounded [] true 3 0 []).1,
    (round_robin_attempts_bounded [] true 3 0 []).2.1 rfl,
    (round_robin_attempts_bounded [⟨"A", true, "museum"⟩] false 3 0 ["A"]).2.2.1
      (by decide),
    (round_robin_attempts_bounded [⟨"B", false, "park"⟩] true 3 5 []).2.2.2
      ⟨rfl, by decide⟩⟩

theorem insSorted_perm (x : POI) : ∀ (l : List POI), (insSorted x l).Perm (x :: l)
  | [] => List.Perm.refl _
  | y :: ys => by
    simp only [insSorted]
    by_cases h : score y < score x
    · simp only [if_pos h]
      exact List.Perm.trans (List.Perm.cons y (insSorted_perm x ys)) (List.Perm.swap x y ys)
    · simp only [if_neg h]
      exact List.Perm.refl _

theorem sortByScore_perm : ∀ (l : List POI), (sortByScore l).Perm l
  | [] => List.Perm.refl _
  | x :: xs =>
    List.Perm.trans (insSorted_perm x (sortByScore xs)) (List.Perm.cons x (sortByScore_perm xs))

theorem insSorted_split (x : POI) :
    ∀ (l : List POI), ∃ l1 l2, l = l1 ++ l2 ∧ insSorted x l = l1 ++ x :: l2 ∧
      ∀ y ∈ l1, score y < score x
  | [] => ⟨[], [], rfl, rfl, by simp⟩
  | y :: ys => by
    simp only [insSorted]
    by_cases h : score y < score x
    · simp only [if_pos h]
      obtain ⟨l1, l2, h1, h2, h3⟩ := insSorted_split x ys
      refine ⟨y :: l1, l2, by rw [h1]; rfl, by rw [h2]; rfl, ?_⟩
      intro z hz
      rcases List.mem_cons.mp hz with rfl | hz
      · exact h
      · exact h3 z hz
    · simp only [if_neg h]
      exact ⟨[], y :: ys, rfl, rfl, by simp⟩

theorem insSorted_sorted (x : POI) :
    ∀ (l : List POI), l.Pairwise (fun a b => score a ≤ score b) →
      (insSorted x l).Pairwise (fun a b => score a ≤ score b)
  | [], _ => List.pairwise_singleton _ _
  | y :: ys, hp => by
    have hy : ∀ z ∈ ys, score y ≤ score z := fun z hz => (List.pairwise_cons.mp hp).1 z hz
    have hys : ys.Pairwise (fun a b => score a ≤ score b) := (List.pairwise_cons.mp hp).2
    simp only [insSorted]
    by_cases h : score y < score x
    · simp only [if_pos h]
      rw [List.pairwise_cons]
      refine ⟨?_, insSorted_sorted x ys hys⟩
      intro z hz
      have := (insSorted_perm x ys).mem_iff.mp hz
      rcases List.mem_cons.mp this with rfl | hz'
      · exact le_of_lt h
      · exact hy z hz'
    · simp only [if_neg h]
      rw [List.pairwise_cons]
      refine ⟨?_, hp⟩
      intro z hz
      rcases List.mem_cons.mp hz with rfl | hz'
      · exact not_lt.mp h
      · exact le_trans (not_lt.mp h) (hy z hz')

theorem sortByScore_sorted : ∀ (l : List POI),
    (sortByScore l).Pairwise (fun a b => score a ≤ score b)
  | [] => List.Pairwise.nil
  | x :: xs => insSorted_sorted x (sortByScore xs) (sortByScore_sorted xs)

theorem insSorted_filter_stable (x : POI) (c : Int) (hx : score x = c) :
    ∀ (l : List POI), l.Pairwise (fun a b => score a ≤ score b) →
      (insSorted x l).filter (fun p => decide (score p = c)) =
        x :: l.filter (fun p => decide (score p = c)) := by
  intro l hsorted
  obtain ⟨l1, l2, h1, h2, h3⟩ := insSorted_split x l
  rw [h2, List.filter_append, h1, List.filter_append]
  have hl1 : l1.filter (fun p => decide (score p = c)) = [] := by
    rw [List.filter_eq_nil_iff]
    intro y hy
    have := h3 y hy
    simp only [decide_eq_true_eq]
    omega
  rw [hl1]
  simp [hx]

theorem sortByScore_stable : ∀ (l : List POI) (c : Int),
    (sortByScore l).filter (fun p => decide (score p = c)) =
      l.filter (fun p => decide (score p = c))
  | [], _ => rfl
  | x :: xs, c => by
    simp only [sortByScore]
    by_cases hx : score x = c
    · rw [insSorted_filter_stable x c hx (sortByScore xs) (sortByScore_sorted xs),
        sortByScore_stable xs c]
      simp [List.filter_cons, hx]
    · obtain ⟨l1, l2, h1, h2, h3⟩ := insSorted_split x (sortByScore xs)
      rw [h2, List.filter_append]
      have hxf : (x :: l2).filter (fun p => decide (score p = c)) =
          l2.filter (fun p => decide (score p = c)) := by
        simp [List.filter_cons, hx]
      rw [hxf, ← List.filter_append, ← h1, sortByScore_stable xs c]
      simp [List.filter_cons, hx]

theorem overpassLoop_keys (limit : Nat) :
    ∀ (els : List OElem) (seen : List String) (count : Nat),
      ((overpassLoop limit els seen count).map (fun p => lowerTrim p.name)).Nodup ∧
      ∀ p ∈ overpassLoop limit els seen count, lowerTrim p.name ∉ seen
  | [], _, _ => ⟨List.nodup_nil, by simp [overpassLoop]⟩
  | e :: rest, seen, count => by
    simp only [overpassLoop]
    cases hname : e.name with
    | none => exact overpassLoop_keys limit rest seen count
    | some name =>
      by_cases hseen : lowerTrim name ∈ seen
      · simp only [if_pos hseen]
        exact overpassLoop_keys limit rest seen count
      · simp only [if_neg hseen]
        by_cases hstop : limit ≤ count + 1
        · simp only [if_pos hstop]
          constructor
          · simp
          · intro p hp
            have hpe := List.mem_singleton.mp hp
            subst hpe
            simpa using hseen
        · simp only [if_neg hstop]
          obtain ⟨ih1, ih2⟩ := overpassLoop_keys limit rest (lowerTrim name :: seen) (count + 1)
          constructor
          · rw [List.map_cons, List.nodup_cons]
            refine ⟨?_, ih1⟩
            intro hmem
            obtain ⟨p, hp, hpe⟩ := List.mem_map.mp hmem
            exact ih2 p hp (hpe ▸ List.mem_cons_self _ _)
          · intro p hp
            rcases List.mem_cons.mp hp with rfl | hp
            · simpa using hseen
            · intro hmem
              exact ih2 p hp (List.mem_cons_of_mem _ hmem)

theorem fetch_pois_overpass_keys (elements : List OElem) (limit : Nat) :
    ((fetch_pois_overpass elements limit).map (fun p => lowerTrim p.name)).Nodup :=
  (overpassLoop_keys limit elements [] 0).1

/-- Claim C5: the Overpass fallback runs only when the primary path yields
zero results (a nonempty primary result makes the output independent of the
fallback data); the fallback result is the overpass list deduplicated by
lowercase-trimmed name, stably sorted ascending by the fixed priority score
(unmatched kinds score 0, the maximum, hence sort last), truncated to limit,
with max(limit, 12) >= 12 requested from the fallback; the output is sorted,
its dedup keys stay pairwise distinct, its length is at most limit, and
equal-score POIs keep their first-seen order (the filter at every score
class is unchanged by the sort). -/
theorem poi_fallback_properties (primary : List POI) (elements : List OElem) (limit : Nat) :
    ((primary ≠ []) → ∀ elements',
      fetch_pois primary elements limit = fetch_pois primary elements' limit) ∧
    (fetch_pois [] elements limit =
      (if (fetch_pois_overpass elements (max limit 12)).isEmpty then []
       else (sortByScore (fetch_pois_overpass elements (max limit 12))).take limit)) ∧
    12 ≤ max limit 12 ∧
    (fetch_pois [] elements limit).length ≤ limit ∧
    (fetch_pois [] elements limit).Pairwise (fun a b => score a ≤ score b) ∧
    ((fetch_pois [] elements limit).map (fun p => lowerTrim p.name)).Nodup ∧
    (∀ c : Int, (sortByScore (fetch_pois_overpass elements (max limit 12))).filter
        (fun p => decide (score p = c)) =
      (fetch_pois_overpass elements (max limit 12)).filter (fun p => decide (score p = c))) := by
  refine ⟨?_, rfl, le_max_right _ _, ?_, ?_, ?_, sortByScore_stable _⟩
  · intro hne elements'
    have : primary.isEmpty = false := by
      cases primary
      · exact absurd rfl hne
      · rfl
    simp [fetch_pois, this]
  · show (fetch_pois [] elements limit).length ≤ limit
    rw [show fetch_pois [] elements limit =
      (if (fetch_pois_overpass elements (max limit 12)).isEmpty then []
       else (sortByScore (fetch_pois_overpass elements (max limit 12))).take limit) from rfl]
    split
    · simp
    · exact List.length_take_le _ _
  · show (fetch_pois [] elements limit).Pairwise (fun a b => score a ≤ score b)
    rw [show fetch_pois [] elements limit =
      (if (fetch_pois_overpass elements (max limit 12)).isEmpty then []
       else (sortByScore (fetch_pois_overpass elements (max limit 12))).take limit) from rfl]
    split
    · exact List.Pairwise.nil
    · exact (sortByScore_sorted _).sublist (List.take_sublist _ _)
  · show ((fetch_pois [] elements limit).map (fun p => lowerTrim p.name)).Nodup
    rw [show fetch_pois [] elements limit =
      (if (fetch_pois_overpass elements (max limit 12)).isEmpty then []
       else (sortByScore (fetch_pois_overpass elements (max limit 12))).take limit) from rfl]
    split
    · exact List.nodup_nil
    · have hperm := (sortByScore_perm (fetch_pois_overpass elements (max limit 12))).map
        (fun p => lowerTrim p.name)
      have hnd : ((sortByScore (fetch_pois_overpass elements (max limit 12))).map
          (fun p => lowerTrim p.name)).Nodup :=
        hperm.nodup_iff.mpr (fetch_pois_overpass_keys elements (max limit 12))
      rw [List.map_take]
      exact hnd.sublist (List.take_sublist _ _)

/-- Claim C5 witness: a nonempty primary list ignores the fallback data, and
on an empty primary the fallback output over three elements (one duplicate
name, one unmatched kind that sorts last) is ranked, deduplicated and
truncated as stated. -/
theorem poi_fallback_properties_witness :
    (fetch_pois [⟨"P", "museums", none⟩] [⟨some "A", some "zoo", none, none, none⟩] 5 =
      fetch_pois [⟨"P", "museums", none⟩] [] 5) ∧
    (fetch_pois []
        [⟨some "Odd", some "zoo", none, none, none⟩,
          ⟨some "M", none, some "monument", none, none⟩,
          ⟨some " m ", some "viewpoint", none, none, none⟩,
          ⟨some "Att", some "attraction", none, none, none⟩] 3).Pairwise
      (fun a b => score a ≤ score b) ∧
    ((fetch_pois []
        [⟨some "Odd", some "zoo", none, none, none⟩,
          ⟨some "M", none, some "monument", none, none⟩,
          ⟨some " m ", some "viewpoint", none, none, none⟩,
          ⟨some "Att", some "attraction", none, none, none⟩] 3).map
      (fun p => lowerTrim p.name)).Nodup ∧
    (fetch_pois []
        [⟨some "Odd", some "zoo", none, none, none⟩,
          ⟨some "M", none, some "monument", none, none⟩,
          ⟨some " m ", some "viewpoint", none, none, none⟩,
          ⟨some "Att", some "attraction", none, none, none⟩] 3).length ≤ 3 :=
  ⟨(poi_fallback_properties [⟨"P", "museums", none⟩]
      [⟨some "A", some "zoo", none, none, none⟩] 5).1 (by decide) [],
    (poi_fallback_properties []
      [⟨some "Odd", some "zoo", none, none, none⟩,
        ⟨some "M", none, some "monument", none, none⟩,
        ⟨some " m ", some "viewpoint", none, none, none⟩,
        ⟨some "Att", some "attraction", none, none, none⟩] 3).2.2.2.2.1,
    (poi_fallback_properties []
      [⟨some "Odd", some "zoo", none, none, none⟩,
        ⟨some "M", none, some "monument", none, none⟩,
        ⟨some " m ", some "viewpoint", none, none, none⟩,
        ⟨some "Att", some "attraction", none, none, none⟩] 3).2.2.2.2.2.1,
    (poi_fallback_properties []
      [⟨some "Odd", some "zoo", none, none, none⟩,
        ⟨some "M", none, some "monument", none, none⟩,
        ⟨some " m ", some "viewpoint", none, none, none⟩,
        ⟨some "Att", some "attraction", none, none, none⟩] 3).2.2.2.1⟩

theorem mkPool_names (raw : List POI) :
    (mkPool raw).map PoolPOI.name = raw.map POI.name := by
  simp [mkPool, List.map_map]

theorem mem_indoorUnassignedNames (pool : List PoolPOI) (asg : List String) (n : String) :
    n ∈ indoorUnassignedNames pool asg ↔
      ∃ p ∈ pool, p.name = n ∧ p.is_indoor = true ∧ n ∉ asg := by
  simp only [indoorUnassignedNames, List.mem_map, List.mem_filter, Bool.and_eq_true,
    Bool.not_eq_true', decide_eq_false_iff_not]
  constructor
  · rintro ⟨p, ⟨hp, hind, hnin⟩, rfl⟩
    exact ⟨p, hp, rfl, hind, hnin⟩
  · rintro ⟨p, hp, rfl, hind, hnin⟩
    exact ⟨p, ⟨hp, hind, hnin⟩, rfl⟩

theorem indoorUnassignedNames_mono (pool : List PoolPOI) (asg : List String) (x n : String)
    (h : n ∈ indoorUnassignedNames pool (x :: asg)) : n ∈ indoorUnassignedNames pool asg := by
  rw [mem_indoorUnassignedNames] at h ⊢
  obtain ⟨p, hp, rfl, hind, hnin⟩ := h
  exact ⟨p, hp, rfl, hind, fun hc => hnin (List.mem_cons_of_mem _ hc)⟩

theorem indoorUnassignedNames_cons_of_ne (x : String) (asg : List String) :
    ∀ (pool : List PoolPOI), (∀ p ∈ pool, p.name ≠ x) →
      indoorUnassignedNames pool (x :: asg) = indoorUnassignedNames pool asg := by
  intro pool hne
  unfold indoorUnassignedNames
  congr 1
  apply List.filter_congr
  intro p hp
  have : (p.name ∈ x :: asg) ↔ (p.name ∈ asg) := by
    simp [List.mem_cons, hne p hp]
  simp [this]

theorem indoorUnassignedNames_insert (v : PoolPOI) (asg : List String) :
    ∀ (pool : List PoolPOI), (pool.map PoolPOI.name).Nodup → v ∈ pool →
      v.is_indoor = true → v.name ∉ asg →
      (indoorUnassignedNames pool (v.name :: asg)).length + 1 =
        (indoorUnassignedNames pool asg).length
  | [], _, hv, _, _ => absurd hv (List.not_mem_nil v)
  | p :: rest, hnd, hv, hind, hnin => by
    have hnd1 : p.name ∉ rest.map PoolPOI.name := (List.nodup_cons.mp (by simpa using hnd)).1
    have hnd2 : (rest.map PoolPOI.name).Nodup := (List.nodup_cons.mp (by simpa using hnd)).2
    rcases List.mem_cons.mp hv with rfl | hvrest
    · have hrest_ne : ∀ q ∈ rest, q.name ≠ v.name := by
        intro q hq hqe
        exact hnd1 (hqe ▸ List.mem_map_of_mem PoolPOI.name hq)
      have hkeep : (v.is_indoor && !(decide (v.name ∈ asg))) = true := by
        simp [hind, hnin]
      have hdrop : (v.is_indoor && !(decide (v.name ∈ v.name :: asg))) = false := by
        simp
      unfold indoorUnassignedNames
      rw [List.filter_cons, List.filter_cons]
      rw [if_pos hkeep, if_neg (by simp [hdrop])]
      have := indoorUnassignedNames_cons_of_ne v.name asg rest hrest_ne
      unfold indoorUnassignedNames at this
      rw [this]
      simp
    · have hpv : p.name ≠ v.name := by
        intro hpe
        exact hnd1 (hpe ▸ List.mem_map_of_mem PoolPOI.name hvrest)
      have hmem_iff : (p.name ∈ v.name :: asg) ↔ (p.name ∈ asg) := by
        simp [List.mem_cons, hpv]
      have ih := indoorUnassignedNames_insert v asg rest hnd2 hvrest hind hnin
      unfold indoorUnassignedNames
      rw [List.filter_cons, List.filter_cons]
      by_cases hp : (p.is_indoor && !(decide (p.name ∈ asg))) = true
      · have hp' : (p.is_indoor && !(decide (p.name ∈ v.name :: asg))) = true := by
          simp only [Bool.and_eq_true, Bool.not_eq_true', decide_eq_false_iff_not] at hp ⊢
          exact ⟨hp.1, fun hc => hp.2 (hmem_iff.mp hc)⟩
        rw [if_pos hp, if_pos hp']
        unfold indoorUnassignedNames at ih
        simp only [List.map_cons, List.length_cons]
        omega
      · have hp' : ¬(p.is_indoor && !(decide (p.name ∈ v.name :: asg))) = true := by
          simp only [Bool.and_eq_true, Bool.not_eq_true', decide_eq_false_iff_not] at hp ⊢
          intro hc
          exact hp ⟨hc.1, fun hm => hc.2 (hmem_iff.mpr hm)⟩
        rw [if_neg hp, if_neg hp']
        exact ih

theorem visitSeq_mem_pool (pool : List PoolPOI) :
    ∀ (fuel idx : Nat) (v : PoolPOI), v ∈ visitSeq pool idx fuel → v ∈ pool
  | 0, idx, v, h => by simp [visitSeq] at h
  | fuel + 1, idx, v, h => by
    rw [visitSeq] at h
    cases hget : pool.get? (idx % max 1 pool.length) with
    | none =>
      rw [hget] at h
      simp at h
    | some p =>
      rw [hget] at h
      rcases List.mem_cons.mp h with rfl | h'
      · exact List.get?_mem hget
      · exact visitSeq_mem_pool pool fuel (idx + 1) v h'

theorem visitSeq_get? (pool : List PoolPOI) (hpool : pool ≠ []) :
    ∀ (fuel idx t : Nat), t < fuel →
      (visitSeq pool idx fuel).get? t = pool.get? ((idx + t) % max 1 pool.length)
  | 0, idx, t, ht => absurd ht (Nat.not_lt_zero t)
  | fuel + 1, idx, t, ht => by
    have hL : 0 < pool.length := List.length_pos.mpr hpool
    have hmax : max 1 pool.length = pool.length := Nat.max_eq_right hL
    have hlt : idx % max 1 pool.length < pool.length := by
      rw [hmax]
      exact Nat.mod_lt _ hL
    have hget : pool.get? (idx % max 1 pool.length) =
        some (pool.get ⟨idx % max 1 pool.length, hlt⟩) := List.get?_eq_get hlt
    rw [visitSeq, hget]
    cases t with
    | zero =>
      simp only [List.get?_cons_zero]
      rw [Nat.add_zero, hget]
    | succ t' =>
      simp only [List.get?_cons_succ]
      rw [visitSeq_get? pool hpool fuel (idx + 1) t' (by omega),
        show idx + 1 + t' = idx + (t' + 1) from by omega]

theorem visitSeq_covers (pool : List PoolPOI) (hpool : pool ≠ []) (fuel idx : Nat)
    (hfuel : pool.length ≤ fuel) :
    ∀ p ∈ pool, p.name ∈ (visitSeq pool idx fuel).map PoolPOI.name := by
  intro p hp
  have hL : 0 < pool.length := List.length_pos.mpr hpool
  have hmax : max 1 pool.length = pool.length := Nat.max_eq_right hL
  obtain ⟨⟨q, hq⟩, hget⟩ := List.mem_iff_get.mp hp
  set L := pool.length with hLdef
  set r := idx % L with hr
  have hrlt : r < L := Nat.mod_lt _ hL
  set t := (q + L - r) % L with htdef
  have htlt : t < L := Nat.mod_lt _ hL
  have hmod : (idx + t) % L = q := by
    have h1 : (idx + t) % L = (idx % L + t) % L := (Nat.mod_add_mod _ _ _).symm
    have h2 : (r + (q + L - r) % L) % L = (r + (q + L - r)) % L := Nat.add_mod_mod _ _ _
    have h3 : r + (q + L - r) = q + L := by omega
    rw [h1, ← hr, htdef, h2, h3, Nat.add_mod_right]
    exact Nat.mod_eq_of_lt hq
  have hvget : (visitSeq pool idx fuel).get? t = pool.get? ((idx + t) % max 1 L) :=
    visitSeq_get? pool hpool fuel idx t (by omega)
  rw [hmax, hmod] at hvget
  rw [List.get?_eq_get hq] at hvget
  have hpmem : pool.get ⟨q, hq⟩ ∈ visitSeq pool idx fuel := List.get?_mem hvget
  rw [hget] at hpmem
  exact List.mem_map_of_mem PoolPOI.name hpmem

theorem foldSel_indoor (dl : Nat) :
    ∀ (vs : List PoolPOI) (sel asg : List String),
      ∀ n ∈ (foldSel dl true vs sel asg).1,
        n ∈ sel ∨ ∃ v ∈ vs, v.name = n ∧ v.is_indoor = true
  | [], sel, asg, n, h => Or.inl (by simpa [foldSel] using h)
  | v :: vs, sel, asg, n, h => by
    rw [foldSel] at h
    by_cases hlen : sel.length < dl
    · rw [if_pos hlen] at h
      by_cases hasg : v.name ∈ asg
      · rw [if_pos hasg] at h
        rcases foldSel_indoor dl vs sel asg n h with h' | ⟨w, hw, he, hi⟩
        · exact Or.inl h'
        · exact Or.inr ⟨w, List.mem_cons_of_mem _ hw, he, hi⟩
      · rw [if_neg hasg] at h
        by_cases hrain : (true && !v.is_indoor) = true
        · rw [if_pos hrain] at h
          rcases foldSel_indoor dl vs sel asg n h with h' | ⟨w, hw, he, hi⟩
          · exact Or.inl h'
          · exact Or.inr ⟨w, List.mem_cons_of_mem _ hw, he, hi⟩
        · rw [if_neg hrain] at h
          have hind : v.is_indoor = true := by
            cases hcase : v.is_indoor
            · rw [hcase] at hrain
              simp at hrain
            · rfl
          rcases foldSel_indoor dl vs (sel ++ [v.name]) (v.name :: asg) n h with h' | ⟨w, hw, he, hi⟩
          · rcases List.mem_append.mp h' with h'' | h''
            · exact Or.inl h''
            · exact Or.inr ⟨v, List.mem_cons_self _ _,
                (List.mem_singleton.mp h'').symm, hind⟩
          · exact Or.inr ⟨w, List.mem_cons_of_mem _ hw, he, hi⟩
    · rw [if_neg hlen] at h
      exact Or.inl h

theorem rrLoop_eq_foldSel (pool : List PoolPOI) (rainy : Bool) (dl : Nat) (hpool : pool ≠ []) :
    ∀ (fuel idx : Nat) (sel asg : List String),
      (rrLoop pool rainy dl fuel idx sel asg).1 =
        (foldSel dl rainy (visitSeq pool idx fuel) sel asg).1
  | 0, idx, sel, asg => by simp [rrLoop, visitSeq, foldSel]
  | fuel + 1, idx, sel, asg => by
    have hL : 0 < pool.length := List.length_pos.mpr hpool
    have hlt : idx % max 1 pool.length < pool.length := by
      rw [Nat.max_eq_right hL]
      exact Nat.mod_lt _ hL
    rw [visitSeq]
    simp only [rrLoop]
    cases hget : pool.get? (idx % max 1 pool.length) with
    | none =>
      exfalso
      have := List.get?_eq_none.mp hget
      omega
    | some p =>
      simp only [foldSel]
      by_cases hlen : sel.length < dl
      · simp only [if_pos hlen]
        by_cases hasg : p.name ∈ asg
        · simp only [if_pos hasg]
          exact rrLoop_eq_foldSel pool rainy dl hpool fuel (idx + 1) sel asg
        · simp only [if_neg hasg]
          by_cases hrain : (rainy && !p.is_indoor) = true
          · simp only [if_pos hrain]
            exact rrLoop_eq_foldSel pool rainy dl hpool fuel (idx + 1) sel asg
          · simp only [if_neg hrain]
            exact rrLoop_eq_foldSel pool rainy dl hpool fuel (idx + 1) (sel ++ [p.name]) (p.name :: asg)
      · simp only [if_neg hlen]

theorem foldSel_reach (pool : List PoolPOI) (dl : Nat)
    (hnd : (pool.map PoolPOI.name).Nodup) :
    ∀ (vs : List PoolPOI) (sel asg : List String),
      (∀ v ∈ vs, v ∈ pool) →
      sel.length ≤ dl →
      dl ≤ sel.length + (indoorUnassignedNames pool asg).length →
      (∀ n ∈ indoorUnassignedNames pool asg, n ∈ vs.map PoolPOI.name) →
      (foldSel dl true vs sel asg).1.length = dl
  | [], sel, asg, _, hle, hcnt, hcov => by
    have hempty : indoorUnassignedNames pool asg = [] := by
      rw [List.eq_nil_iff_forall_not_mem]
      intro n hn
      simpa using hcov n hn
    rw [hempty] at hcnt
    simp only [List.length_nil, Nat.add_zero] at hcnt
    simp only [foldSel]
    show sel.length = dl
    omega
  | v :: vs, sel, asg, hvp, hle, hcnt, hcov => by
    rw [foldSel]
    by_cases hlen : sel.length < dl
    · rw [if_pos hlen]
      by_cases hasg : v.name ∈ asg
      · rw [if_pos hasg]
        apply foldSel_reach pool dl hnd vs sel asg
          (fun w hw => hvp w (List.mem_cons_of_mem _ hw)) hle hcnt
        intro n hn
        have := hcov n hn
        rcases List.mem_map.mp this with ⟨w, hw, hwe⟩
        rcases List.mem_cons.mp hw with rfl | hw'
        · exfalso
          obtain ⟨p, _, rfl, _, hnin⟩ := (mem_indoorUnassignedNames pool asg n).mp hn
          exact hnin (hwe ▸ hasg)
        · exact hwe ▸ List.mem_map_of_mem _ hw' 
      · rw [if_neg hasg]
        by_cases hrain : (true && !v.is_indoor) = true
        · rw [if_pos hrain]
          have hvout : v.is_indoor = false := by
            cases hcase : v.is_indoor
            · rfl
            · rw [hcase] at hrain
              simp at hrain
          apply foldSel_reach pool dl hnd vs sel asg
            (fun w hw => hvp w (List.mem_cons_of_mem _ hw)) hle hcnt
          intro n hn
          have := hcov n hn
          rcases List.mem_map.mp this with ⟨w, hw, hwe⟩
          rcases List.mem_cons.mp hw with rfl | hw'
          · exfalso
            obtain ⟨p, hpmem, hpe, hpind, _⟩ := (mem_indoorUnassignedNames pool asg n).mp hn
            have hvpool : w ∈ pool := hvp w (List.mem_cons_self _ _)
            have : p = w := List.inj_on_of_nodup_map hnd hpmem hvpool (by rw [hpe, hwe])
            rw [this] at hpind
            rw [hvout] at hpind
            exact Bool.false_ne_true hpind
          · exact hwe ▸ List.mem_map_of_mem _ hw'
        · rw [if_neg hrain]
          have hind : v.is_indoor = true := by
            cases hcase : v.is_indoor
            · rw [hcase] at hrain
              simp at hrain
            · rfl
          have hvpool : v ∈ pool := hvp v (List.mem_cons_self _ _)
          have hins := indoorUnassignedNames_insert v asg pool hnd hvpool hind hasg
          apply foldSel_reach pool dl hnd vs (sel ++ [v.name]) (v.name :: asg)
            (fun w hw => hvp w (List.mem_cons_of_mem _ hw))
            (by simp; omega)
            (by simp only [List.length_append, List.length_singleton]; omega)
          intro n hn
          have hnUN : n ∈ indoorUnassignedNames pool asg := indoorUnassignedNames_mono pool asg v.name n hn
          have := hcov n hnUN
          rcases List.mem_map.mp this with ⟨w, hw, hwe⟩
          rcases List.mem_cons.mp hw with rfl | hw'
          · exfalso
            obtain ⟨p, _, rfl, _, hnin⟩ := (mem_indoorUnassignedNames pool (w.name :: asg) n).mp hn
            exact hnin (hwe ▸ List.mem_cons_self _ _)
          · exact hwe ▸ List.mem_map_of_mem _ hw'
    · rw [if_neg hlen]
      show sel.length = dl
      omega

/-- Claim C3: on a rainy day (precipitation at the day's index at least
2.0 mm), if at least daily_limit indoor-tagged pool POIs are still
unassigned when the day is processed, the day's selection is exactly
daily_limit POIs and every one of them is an indoor pool POI (so every
filled slot of that day is indoor and backfill never runs). -/
theorem rainy_day_slots_all_indoor (raw : List POI) (precip : List ℚ)
    (dl dayIndex idx : Nat) (asg : List String)
    (hnd : (raw.map POI.name).Nodup)
    (hrain : rainyAt precip dayIndex = true)
    (hcount : dl ≤ (indoorUnassignedNames (mkPool raw) asg).length) :
    ((processDay (mkPool raw) precip dl dayIndex idx asg).1).length = dl ∧
    ∀ n ∈ (processDay (mkPool raw) precip dl dayIndex idx asg).1,
      ∃ p ∈ mkPool raw, p.name = n ∧ p.is_indoor = true := by
  set pool := mkPool raw with hpooldef
  have hndp : (pool.map PoolPOI.name).Nodup := by
    rw [hpooldef, mkPool_names]
    exact hnd
  by_cases hdl : dl = 0
  · subst hdl
    have hrr : (rrLoop pool (rainyAt precip dayIndex) 0 (rrBound pool) idx [] asg).1 = [] := by
      cases hfb : rrBound pool with
      | zero => simp [rrLoop]
      | succ f => simp [rrLoop]
    constructor
    · simp [processDay, hrr]
    · intro n hn
      simp [processDay, hrr] at hn
  · have hUNne : indoorUnassignedNames pool asg ≠ [] := by
      intro h
      rw [h] at hcount
      simp at hcount
      omega
    have hpool : pool ≠ [] := by
      intro h
      exact hUNne (by rw [h]; rfl)
    have hL : 0 < pool.length := List.length_pos.mpr hpool
    have hfuel : pool.length ≤ rrBound pool := by
      rw [rrBound, Nat.max_eq_right hL]
      omega
    have hcov : ∀ n ∈ indoorUnassignedNames pool asg,
        n ∈ (visitSeq pool idx (rrBound pool)).map PoolPOI.name := by
      intro n hn
      obtain ⟨p, hp, rfl, _, _⟩ := (mem_indoorUnassignedNames pool asg n).mp hn
      exact visitSeq_covers pool hpool (rrBound pool) idx hfuel p hp
    have hvs_pool : ∀ v ∈ visitSeq pool idx (rrBound pool), v ∈ pool :=
      fun v hv => visitSeq_mem_pool pool (rrBound pool) idx v hv
    have hreach := foldSel_reach pool dl hndp (visitSeq pool idx (rrBound pool)) [] asg
      hvs_pool (by simp) (by simpa using hcount) hcov
    have heqT := rrLoop_eq_foldSel pool true dl hpool (rrBound pool) idx [] asg
    have hlenT : (rrLoop pool true dl (rrBound pool) idx [] asg).1.length = dl := by
      rw [heqT]
      exact hreach
    have hnlt : ¬((rrLoop pool true dl (rrBound pool) idx [] asg).1.length < dl) := by omega
    constructor
    · simp only [processDay, hrain, if_neg hnlt]
      exact hlenT
    · intro n hn
      simp only [processDay, hrain, if_neg hnlt] at hn
      rw [heqT] at hn
      rcases foldSel_indoor dl (visitSeq pool idx (rrBound pool)) [] asg n hn with h | ⟨v, hv, he, hi⟩
      · simp at h
      · exact ⟨v, hvs_pool v hv, he, hi⟩

/-- Claim C3 witness: a rainy single day (5 mm) over a pool with three
indoor POIs and daily_limit 3 selects exactly three indoor POIs. -/
theorem rainy_day_slots_all_indoor_witness :
    ((processDay (mkPool [⟨"M1", "museum", none⟩, ⟨"P1", "park", none⟩,
        ⟨"M2", "cinema", none⟩, ⟨"M3", "library", none⟩]) [5] 3 0 0 []).1).length = 3 ∧
    ∀ n ∈ (processDay (mkPool [⟨"M1", "museum", none⟩, ⟨"P1", "park", none⟩,
        ⟨"M2", "cinema", none⟩, ⟨"M3", "library", none⟩]) [5] 3 0 0 []).1,
      ∃ p ∈ mkPool [⟨"M1", "museum", none⟩, ⟨"P1", "park", none⟩,
        ⟨"M2", "cinema", none⟩, ⟨"M3", "library", none⟩], p.name = n ∧ p.is_indoor = true :=
  rainy_day_slots_all_indoor [⟨"M1", "museum", none⟩, ⟨"P1", "park", none⟩,
    ⟨"M2", "cinema", none⟩, ⟨"M3", "library", none⟩] [5] 3 0 0 []
    (by decide) (by decide) (by decide)
